import Mathlib

/-!
Shallow embedding of the graphs repository (src/graphs.h, src/main.cpp).

The data model follows `src/graphs.h`: a `Vertex` wraps a `Value`
(a string/int pair), an `Edge` holds an optional source and an optional
destination vertex (C++ `unique_ptr` slots, absent = null), and a
`DirectedGraph` owns an ordered list of edges (the C++ `vector<Edge> edges_`,
insertion order preserved).  C++ `int` counters are modelled as `Nat`
(the counting loops only ever increment from zero).

The headers `dg.h`, `dag.h` and `tree.h` included by `src/main.cpp` are not
part of the repository snapshot; the DirectedAcyclicGraph and Tree mutation
rules they implement are modelled from the specification (each such
definition carries a `Modelled from the spec:` comment).
-/

namespace Graphs

/-- Payload type of a vertex: `using Value = std::pair<string, int>` in the source. -/
abbrev Value := String × Int

/-- Embeds class `Vertex` (src/graphs.h, lines 66-84): wraps a `Value`;
`operator==` compares the wrapped values, so equality is structural and
coincides with Lean propositional equality on this structure. -/
structure Vertex where
  value : Value
deriving DecidableEq

/-- Embeds `Vertex::to_string` (src/graphs.h, lines 76-80):
renders as `(first, second)`. -/
def Vertex.to_string (v : Vertex) : String :=
  "(" ++ v.value.1 ++ ", " ++ toString v.value.2 ++ ")"

/-- Embeds class `Edge` (src/graphs.h, lines 86-159): at most one source and
at most one destination vertex, each independently present or absent
(`unique_ptr` null = `none`).  The optional edge payload of the draft
variants is not part of `graphs.h` and is not modelled. -/
structure Edge where
  source : Option Vertex
  dest : Option Vertex
deriving DecidableEq

/-- Embeds `Edge::operator==` (src/graphs.h, lines 111-121) on distinct
objects (the `this == &other` pointer-identity shortcut has no counterpart
for Lean values; it is accounted for separately where `std::find` compares a
stored edge with itself, see `findEqIdx`).  The C++ dereferences
`other.source_` / `other.dest_` without a null check, so on the branches
where the right-hand slot is absent while the left-hand one is present the
C++ dereferences a null pointer (undefined behavior); those comparisons are
modelled as unequal. -/
def edgeEquals (e1 e2 : Edge) : Bool :=
  match e1.source with
  | none => false
  | some s1 =>
    match e2.source with
    | none => false
    | some s2 =>
      if s1 = s2 then
        match e1.dest with
        | none => false
        | some d1 =>
          match e2.dest with
          | none => false
          | some d2 => if d1 = d2 then true else false
      else false

/-- Embeds `Edge::to_string` (src/graphs.h, lines 131-146): source
representation or `NULL`, then `" -> "`, then destination representation or
`NULL`, then a newline. -/
def Edge.to_string (e : Edge) : String :=
  (match e.source with
   | some s => s.to_string
   | none => "NULL") ++ " -> " ++
  (match e.dest with
   | some d => d.to_string
   | none => "NULL") ++ "\n"

/-- Embeds `DirectedGraph::add` (src/graphs.h, lines 171-175): appends an
edge with source = copy of `v` and no destination. -/
def DirectedGraph.add (es : List Edge) (v : Vertex) : List Edge :=
  es ++ [⟨some v, none⟩]

/-- Embeds `DirectedGraph::add_edge` (src/graphs.h, lines 177-182): appends
an edge with source = copy of `u` and destination = copy of `v`;
the member function returns `void`, so insertion is unconditional. -/
def DirectedGraph.add_edge (es : List Edge) (u v : Vertex) : List Edge :=
  es ++ [⟨some u, some v⟩]

/-- Embeds `DirectedGraph::vertex_count` (src/graphs.h, lines 197-208):
for each stored edge, count one for a present source and one for a present
destination. -/
def DirectedGraph.vertex_count : List Edge → Nat
  | [] => 0
  | e :: es =>
    (if e.source.isSome then 1 else 0) +
    (if e.dest.isSome then 1 else 0) +
    DirectedGraph.vertex_count es

/-- Embeds `DirectedGraph::edge_count` (src/graphs.h, lines 210-220):
counts the stored edges that have both a source and a destination. -/
def DirectedGraph.edge_count : List Edge → Nat
  | [] => 0
  | e :: es =>
    (if e.source.isSome && e.dest.isSome then 1 else 0) +
    DirectedGraph.edge_count es

/-- Per-edge test of `DirectedGraph::are_adjacent` (src/graphs.h, lines
222-231): the edge has a present source equal to `u` and a present
destination equal to `v`. -/
def edgeMatches (e : Edge) (u v : Vertex) : Bool :=
  match e.source, e.dest with
  | some s, some d => if s = u then (if d = v then true else false) else false
  | _, _ => false

/-- Embeds `DirectedGraph::are_adjacent` (src/graphs.h, lines 222-231):
true iff some stored edge has source `u` and destination `v`. -/
def DirectedGraph.are_adjacent : List Edge → Vertex → Vertex → Bool
  | [], _, _ => false
  | e :: es, u, v => edgeMatches e u v || DirectedGraph.are_adjacent es u v

/-- Contribution of one stored edge to `DirectedGraph::get_neighbors`
(src/graphs.h, lines 233-251): if the source is present and equals the query
vertex, push the destination when present; otherwise, if the destination is
present and equals the query vertex, push the source when present. -/
def neighborContrib (vertex : Vertex) (e : Edge) : List Vertex :=
  match e.source, e.dest with
  | some s, some d =>
    if s = vertex then [d]
    else if d = vertex then [s]
    else []
  | some s, none =>
    if s = vertex then [] else []
  | none, some d =>
    if d = vertex then [] else []
  | none, none => []

/-- Embeds `DirectedGraph::get_neighbors` (src/graphs.h, lines 233-251):
collects, in edge-storage order, the other occupied slot of every edge in
which the query vertex occupies a slot.  The C++ pushes pointers obtained
from immediately destroyed temporaries; the vertex values pushed are
modelled (copies of the stored vertices at push time). -/
def DirectedGraph.get_neighbors : List Edge → Vertex → List Vertex
  | [], _ => []
  | e :: es, vertex => neighborContrib vertex e ++ DirectedGraph.get_neighbors es vertex

/-- Embeds `DirectedGraph::to_string` (src/graphs.h, lines 163-169): a
header line with the vertex count, then, for each stored edge in order,
`e.to_string()` followed by an extra newline, accumulated left to right. -/
def DirectedGraph.to_string (es : List Edge) : String :=
  es.foldl (fun acc e => acc ++ (e.to_string ++ "\n"))
    ("Graph (# vertices = " ++ toString (DirectedGraph.vertex_count es) ++ "):\n")

/-- Empty edge value: both slots absent (a default-constructed `Edge`).
Used to model the vacated tail slots left behind by `vector::erase` during
`DirectedGraph::remove` (see `removeGo`). -/
def nullEdge : Edge := ⟨none, none⟩

/-- Models `edges_.erase(it)` at index `j` as seen through a raw pointer
into the vector buffer: the elements after `j` shift left one slot and the
vacated tail slot is left behind; in practice the moved-from `unique_ptr`
slots read back as null, so the stale slot reads as `nullEdge`.  The buffer
keeps its original length. -/
def eraseSlot (buf : List Edge) (j : Nat) : List Edge :=
  buf.eraseIdx j ++ [nullEdge]

/-- Models `std::find(edges_.begin(), edges_.end(), e)` inside
`DirectedGraph::remove` (src/graphs.h, line 189), where `e` is a reference
to the slot at index `self`: returns the index of the first slot whose edge
compares equal to `e` under `Edge::operator==` — structurally via
`edgeEquals`, or by the pointer-identity shortcut when the slot is `self`
itself (so a match always exists at or before `self`). -/
def findEqIdx : List Edge → Edge → Nat → Nat
  | [], _, _ => 0
  | b :: bs, e, self =>
    if edgeEquals b e then 0
    else if self = 0 then 0
    else findEqIdx bs e (self - 1) + 1

/-- Models the body of `DirectedGraph::remove` (src/graphs.h, lines
184-195).  The C++ iterates a range-for over `edges_` while calling
`edges_.erase` inside the loop; erasing invalidates the iterator, and under
the de-facto `std::vector` behavior (no reallocation on erase, elements
shift left, the pointer keeps its buffer position, the stale `__end` is the
one fetched before the loop) the loop visits each original buffer slot
exactly once — so the element that shifts into the erased slot is skipped.
`buf` is the buffer (original length, stale tail slots = `nullEdge`), `i`
the current slot, `size` the current logical vector size, and the fuel is
the number of slots left to visit. -/
def removeGo (v : Vertex) : Nat → List Edge → Nat → Nat → List Edge × Nat
  | 0, buf, _, size => (buf, size)
  | fuel + 1, buf, i, size =>
    match (buf.getD i nullEdge).source with
    | some s =>
      if s = v then
        removeGo v fuel
          (eraseSlot buf (findEqIdx buf (buf.getD i nullEdge) i)) (i + 1) (size - 1)
      else
        removeGo v fuel buf (i + 1) size
    | none => removeGo v fuel buf (i + 1) size

/-- Embeds `DirectedGraph::remove` (src/graphs.h, lines 184-195) under the
de-facto semantics described at `removeGo`; the resulting vector is the
live prefix of the buffer. -/
def DirectedGraph.remove (es : List Edge) (v : Vertex) : List Edge :=
  (removeGo v es.length es 0 es.length).1.take (removeGo v es.length es 0 es.length).2

/-- Modelled from the spec: successor vertices of `x` under the stored edge
relation — for every stored edge with both slots present whose source
equals `x`, its destination (spec section 4.2: "following existing
edges"). -/
def succs (es : List Edge) (x : Vertex) : List Vertex :=
  es.foldr (fun e acc =>
    match e.source, e.dest with
    | some s, some d => if s = x then d :: acc else acc
    | _, _ => acc) []

/-- Appends to `vs` the elements of `xs` not already present (simple
worklist growth for the reachability search). -/
def addNew (vs xs : List Vertex) : List Vertex :=
  xs.foldl (fun acc x => if acc.any (fun y => decide (y = x)) then acc else acc ++ [x]) vs

/-- One expansion step of the reachability search: add every successor of a
currently reached vertex. -/
def reachStep (es : List Edge) (vs : List Vertex) : List Vertex :=
  addNew vs (vs.foldr (fun x acc => succs es x ++ acc) [])

/-- Modelled from the spec: the set of vertices reachable from `v` by a
directed path (length zero included) over the stored edges — a breadth
expansion iterated once per stored edge, which saturates (spec section 4.2:
"a reachability search from destination following existing edges"). -/
def reachableFrom (es : List Edge) (v : Vertex) : List Vertex :=
  Nat.iterate (reachStep es) es.length [v]

/-- Modelled from the spec: `a` has a directed path to `b` in the stored
edge set. -/
def reaches (es : List Edge) (a b : Vertex) : Bool :=
  (reachableFrom es a).any (fun y => decide (y = b))

/-- Modelled from the spec: `DirectedAcyclicGraph::add_edge` (the file
`dag.h` included by src/main.cpp is not in the repository).  Spec section
4.2: before insertion, determine whether the destination already has a
directed path back to the source; if so reject — the graph is left
unmodified and the operation reports failure (boolean result); otherwise
append the edge as `DirectedGraph::add_edge` does. -/
def DirectedAcyclicGraph.add_edge (es : List Edge) (u v : Vertex) : Bool × List Edge :=
  if reaches es v u then (false, es)
  else (true, es ++ [⟨some u, some v⟩])

/-- Modelled from the spec: `Tree::add` (the file `tree.h` included by
src/main.cpp is not in the repository).  Spec section 4.3: an
isolated-vertex insertion succeeds only while the tree is empty,
establishing the root; once any vertex exists it is rejected and the tree
is left unchanged (boolean result, no partial mutation). -/
def Tree.add (es : List Edge) (v : Vertex) : Bool × List Edge :=
  if es.isEmpty then (true, es ++ [⟨some v, none⟩])
  else (false, es)

/-- True iff some stored edge has a present destination equal to `v`
(an incoming edge of `v`). -/
def hasIncoming (es : List Edge) (v : Vertex) : Bool :=
  es.any (fun e =>
    match e.dest with
    | some d => decide (d = v)
    | none => false)

/-- Modelled from the spec: `Tree::add_edge` (the file `tree.h` included by
src/main.cpp is not in the repository).  Spec section 4.3: succeeds only if
the destination does not acquire a second incoming edge and no cycle is
created (a directed path from `v` back to `u` would close one); on
violation the tree is left unmodified and failure is reported. -/
def Tree.add_edge (es : List Edge) (u v : Vertex) : Bool × List Edge :=
  if hasIncoming es v || reaches es v u then (false, es)
  else (true, es ++ [⟨some u, some v⟩])

/-- States of a `DirectedGraph` reachable from the empty graph by any
sequence of `add`, `add_edge` and `remove` calls. -/
inductive Reachable : List Edge → Prop
  | empty : Reachable []
  | add (es : List Edge) (v : Vertex) :
      Reachable es → Reachable (DirectedGraph.add es v)
  | add_edge (es : List Edge) (u v : Vertex) :
      Reachable es → Reachable (DirectedGraph.add_edge es u v)
  | remove (es : List Edge) (v : Vertex) :
      Reachable es → Reachable (DirectedGraph.remove es v)

/-- Number of occupied (source or destination) slots of one stored edge, as
the spec describes vertex counting (spec section 3). -/
def occupiedSlots (e : Edge) : Nat :=
  (match e.source with
   | some _ => 1
   | none => 0) +
  (match e.dest with
   | some _ => 1
   | none => 0)

/-- Rendering of one edge slot as the spec describes it (spec section 6):
the vertex representation, or the literal `NULL` when the slot is absent. -/
def specSlotRepr : Option Vertex → String
  | some v => v.to_string
  | none => "NULL"

/-- Rendering of one stored edge as the spec describes it (spec section 6):
`"<source-repr> -> <destination-repr>"`. -/
def specEdgeLine (e : Edge) : String :=
  specSlotRepr e.source ++ " -> " ++ specSlotRepr e.dest

/-- Concatenation of a list of strings, front to back. -/
def concatStrs : List String → String
  | [] => ""
  | s :: ss => s ++ concatStrs ss

/-- Concrete vertex with value ("A", 1), as in the tests of src/main.cpp. -/
def vA : Vertex := ⟨("A", 1)⟩

/-- Concrete vertex with value ("B", 2), as in the tests of src/main.cpp. -/
def vB : Vertex := ⟨("B", 2)⟩

/-- Concrete vertex with value ("C", 3), as in the tests of src/main.cpp. -/
def vC : Vertex := ⟨("C", 3)⟩

theorem adjacent_append_last (es : List Edge) (u v : Vertex) :
    DirectedGraph.are_adjacent (es ++ [⟨some u, some v⟩]) u v = true := by
  induction es with
  | nil => simp [DirectedGraph.are_adjacent, edgeMatches]
  | cons e es ih => simp [DirectedGraph.are_adjacent, ih]

theorem edge_count_append_full (es : List Edge) (u v : Vertex) :
    DirectedGraph.edge_count (es ++ [⟨some u, some v⟩]) =
      DirectedGraph.edge_count es + 1 := by
  induction es with
  | nil => simp [DirectedGraph.edge_count]
  | cons e es ih =>
    simp only [List.cons_append, DirectedGraph.edge_count, List.append_eq]
    rw [ih]
    omega

/-- C1: for every graph variant and every pair of vertices u, v, when
`add_edge(u, v)` is accepted, `are_adjacent(u, v)` immediately afterwards
returns true and `edge_count` after the call equals `edge_count` before the
call plus one.  The DirectedGraph variant accepts unconditionally; the
DirectedAcyclicGraph and Tree variants are the spec-modelled ones and share
the DirectedGraph read operations. -/
theorem c1_add_edge_then_adjacent_and_count (es : List Edge) (u v : Vertex) :
    (DirectedGraph.are_adjacent (DirectedGraph.add_edge es u v) u v = true ∧
      DirectedGraph.edge_count (DirectedGraph.add_edge es u v) =
        DirectedGraph.edge_count es + 1) ∧
    ((DirectedAcyclicGraph.add_edge es u v).1 = true →
      DirectedGraph.are_adjacent (DirectedAcyclicGraph.add_edge es u v).2 u v = true ∧
      DirectedGraph.edge_count (DirectedAcyclicGraph.add_edge es u v).2 =
        DirectedGraph.edge_count es + 1) ∧
    ((Tree.add_edge es u v).1 = true →
      DirectedGraph.are_adjacent (Tree.add_edge es u v).2 u v = true ∧
      DirectedGraph.edge_count (Tree.add_edge es u v).2 =
        DirectedGraph.edge_count es + 1) := by
  refine ⟨⟨adjacent_append_last es u v, edge_count_append_full es u v⟩, ?_, ?_⟩
  · intro h
    by_cases hr : reaches es v u
    · simp [DirectedAcyclicGraph.add_edge, hr] at h
    · simp [DirectedAcyclicGraph.add_edge, hr]
      exact ⟨adjacent_append_last es u v, edge_count_append_full es u v⟩
  · intro h
    by_cases hr : (hasIncoming es v || reaches es v u) = true
    · simp [Tree.add_edge, hr] at h
    · simp [Tree.add_edge, hr]
      exact ⟨adjacent_append_last es u v, edge_count_append_full es u v⟩

theorem c1_witness :
    (DirectedGraph.are_adjacent (DirectedGraph.add_edge [] vA vB) vA vB = true ∧
      DirectedGraph.edge_count (DirectedGraph.add_edge [] vA vB) =
        DirectedGraph.edge_count [] + 1) ∧
    (DirectedGraph.are_adjacent (DirectedAcyclicGraph.add_edge [] vA vB).2 vA vB = true ∧
      DirectedGraph.edge_count (DirectedAcyclicGraph.add_edge [] vA vB).2 =
        DirectedGraph.edge_count [] + 1) ∧
    (DirectedGraph.are_adjacent (Tree.add_edge [] vA vB).2 vA vB = true ∧
      DirectedGraph.edge_count (Tree.add_edge [] vA vB).2 =
        DirectedGraph.edge_count [] + 1) := by
  have h := c1_add_edge_then_adjacent_and_count [] vA vB
  exact ⟨h.1, h.2.1 (by decide), h.2.2 (by decide)⟩

/-- C2: for the DirectedAcyclicGraph variant (spec-modelled, `dag.h` not in
the repository), whenever a directed path already exists from v to u in the
stored edge set, `add_edge(u, v)` returns false and the graph is left
completely unmodified: the stored edges, `edge_count` and `vertex_count`
are unchanged. -/
theorem c2_dag_rejects_and_leaves_unchanged (es : List Edge) (u v : Vertex)
    (h : reaches es v u = true) :
    (DirectedAcyclicGraph.add_edge es u v).1 = false ∧
    (DirectedAcyclicGraph.add_edge es u v).2 = es ∧
    DirectedGraph.edge_count (DirectedAcyclicGraph.add_edge es u v).2 =
      DirectedGraph.edge_count es ∧
    DirectedGraph.vertex_count (DirectedAcyclicGraph.add_edge es u v).2 =
      DirectedGraph.vertex_count es := by
  simp [DirectedAcyclicGraph.add_edge, h]

theorem c2_witness :
    (DirectedAcyclicGraph.add_edge [⟨some vA, some vB⟩] vB vA).1 = false ∧
    (DirectedAcyclicGraph.add_edge [⟨some vA, some vB⟩] vB vA).2 =
      [⟨some vA, some vB⟩] ∧
    DirectedGraph.edge_count (DirectedAcyclicGraph.add_edge [⟨some vA, some vB⟩] vB vA).2 =
      DirectedGraph.edge_count [⟨some vA, some vB⟩] ∧
    DirectedGraph.vertex_count (DirectedAcyclicGraph.add_edge [⟨some vA, some vB⟩] vB vA).2 =
      DirectedGraph.vertex_count [⟨some vA, some vB⟩] :=
  c2_dag_rejects_and_leaves_unchanged [⟨some vA, some vB⟩] vB vA (by decide)

/-- C3: for the Tree variant (spec-modelled, `tree.h` not in the
repository), an isolated-vertex `add(v)` succeeds exactly when the tree is
empty: the first add on an empty tree returns true and stores the root
placeholder, and once any vertex exists an isolated add returns false and
leaves the tree unchanged. -/
theorem c3_tree_isolated_add (v : Vertex) (es : List Edge) :
    Tree.add [] v = (true, [⟨some v, none⟩]) ∧
    (DirectedGraph.vertex_count es ≠ 0 → Tree.add es v = (false, es)) := by
  constructor
  · simp [Tree.add]
  · intro h
    cases es with
    | nil => simp [DirectedGraph.vertex_count] at h
    | cons e es => simp [Tree.add]

theorem c3_witness :
    Tree.add [] vB = (true, [⟨some vB, none⟩]) ∧
    Tree.add [⟨some vA, none⟩] vB = (false, [⟨some vA, none⟩]) :=
  ⟨(c3_tree_isolated_add vB [⟨some vA, none⟩]).1,
   (c3_tree_isolated_add vB [⟨some vA, none⟩]).2 (by decide)⟩

/-- C4 (evaluation of the code at the failing input): on the graph with
stored edges A→B and A→C, `remove(A)` leaves the edge A→C stored — an edge
whose source equals the removed vertex survives, because the loop erases
from the vector while iterating over it and the element that shifts into
the erased slot is never examined.  The claim (and spec) say every edge
whose source equals `v` is removed. -/
theorem c4_remove_keeps_source_match :
    DirectedGraph.remove [⟨some vA, some vB⟩, ⟨some vA, some vC⟩] vA =
      [⟨some vA, some vC⟩] ∧
    DirectedGraph.are_adjacent
      (DirectedGraph.remove [⟨some vA, some vB⟩, ⟨some vA, some vC⟩] vA) vA vC = true := by
  decide

/-- C5: `vertex_count()` equals the number of occupied (source or
destination) slots summed over all stored edges, not the number of distinct
vertex values; a vertex value occurring in k slots across the stored edges
contributes k to the count (so one value filling both slots of one edge
already counts 2). -/
theorem c5_vertex_count_counts_slots (es : List Edge) (v : Vertex) (k : Nat) :
    DirectedGraph.vertex_count es = (es.map occupiedSlots).sum ∧
    DirectedGraph.vertex_count (List.replicate k ⟨some v, none⟩) = k ∧
    DirectedGraph.vertex_count [⟨some v, some v⟩] = 2 := by
  refine ⟨?_, ?_, by simp [DirectedGraph.vertex_count]⟩
  · induction es with
    | nil => simp [DirectedGraph.vertex_count]
    | cons e es ih =>
      rcases e with ⟨src, dst⟩
      cases src <;> cases dst <;>
        simp [DirectedGraph.vertex_count, occupiedSlots, ih]
  · induction k with
    | zero => simp [DirectedGraph.vertex_count]
    | succ k ih =>
      simp only [List.replicate_succ, DirectedGraph.vertex_count, ih]
      simp
      omega

theorem mem_neighborContrib (e : Edge) (u v : Vertex) :
    v ∈ neighborContrib u e ↔
      (edgeMatches e u v = true ∨ edgeMatches e v u = true) := by
  rcases e with ⟨src, dst⟩
  cases src <;> cases dst
  · simp [neighborContrib, edgeMatches]
  · simp only [neighborContrib, edgeMatches]
    split_ifs <;> simp_all
  · simp only [neighborContrib, edgeMatches]
    split_ifs <;> simp_all
  · simp only [neighborContrib, edgeMatches]
    split_ifs <;> simp_all <;> tauto

/-- C6: v is an element of `get_neighbors(u)` if and only if
`are_adjacent(u, v)` holds or `are_adjacent(v, u)` holds. -/
theorem c6_neighbors_iff_adjacent (es : List Edge) (u v : Vertex) :
    v ∈ DirectedGraph.get_neighbors es u ↔
      (DirectedGraph.are_adjacent es u v = true ∨
       DirectedGraph.are_adjacent es v u = true) := by
  induction es with
  | nil => simp [DirectedGraph.get_neighbors, DirectedGraph.are_adjacent]
  | cons e es ih =>
    simp only [DirectedGraph.get_neighbors, DirectedGraph.are_adjacent,
      List.mem_append, Bool.or_eq_true, ih, mem_neighborContrib]
    tauto

/-- C7 (counterexample): the claim states that edge equality holds iff the
source slots compare equal and the destination slots compare equal, absent
matching absent; but for two placeholder edges with equal sources and both
destinations absent, `Edge::operator==` (on distinct objects) returns
false, refuting the claimed equivalence at that input. -/
theorem c7_counterexample :
    ¬ ((edgeEquals ⟨some vA, none⟩ ⟨some vA, none⟩ = true) ↔
       ((⟨some vA, none⟩ : Edge).source = (⟨some vA, none⟩ : Edge).source ∧
        (⟨some vA, none⟩ : Edge).dest = (⟨some vA, none⟩ : Edge).dest)) := by
  decide

/-- C7 (amended): for distinct edge objects, `e1 == e2` returns true iff
e1's source is present and equals e2's source and e1's destination is
present and equals e2's destination; in particular two edges whose
destination slots are both absent compare unequal even when their sources
are equal.  (When a slot of e1 is present and the matching slot of e2 is
absent the C++ dereferences a null pointer; that comparison is modelled as
unequal.) -/
theorem c7_amended_edge_equality (e1 e2 : Edge) :
    edgeEquals e1 e2 = true ↔
      (e1.source.isSome = true ∧ e1.source = e2.source ∧
       e1.dest.isSome = true ∧ e1.dest = e2.dest) := by
  rcases e1 with ⟨s1, d1⟩
  rcases e2 with ⟨s2, d2⟩
  cases s1 <;> cases s2 <;> cases d1 <;> cases d2 <;>
    simp [edgeEquals]

theorem strAppend_empty (a : String) : a ++ "" = a := by
  apply String.ext
  simp [String.data_append]

theorem strAppend_assoc (a b c : String) : a ++ b ++ c = a ++ (b ++ c) := by
  apply String.ext
  simp [String.data_append]

theorem foldl_graph_to_string (es : List Edge) : ∀ a : String,
    es.foldl (fun acc e => acc ++ (e.to_string ++ "\n")) a =
      a ++ concatStrs (es.map (fun e => e.to_string ++ "\n")) := by
  induction es with
  | nil =>
    intro a
    simp [concatStrs, strAppend_empty]
  | cons e es ih =>
    intro a
    simp only [List.foldl, List.map, concatStrs]
    rw [ih, strAppend_assoc]

theorem edge_to_string_line (e : Edge) : e.to_string = specEdgeLine e ++ "\n" := by
  rcases e with ⟨src, dst⟩
  cases src <;> cases dst <;>
    simp [Edge.to_string, specEdgeLine, specSlotRepr]

/-- C8: the graph's `to_string` output consists of the vertex-count header
followed, for each stored edge in order, by the line
`"<source-repr> -> <destination-repr>"` (then the edge renderer's newline
and the extra blank line the graph printer appends), where an absent source
or destination slot renders as the literal string `NULL`. -/
theorem c8_to_string_format (es : List Edge) :
    DirectedGraph.to_string es =
      "Graph (# vertices = " ++ toString (DirectedGraph.vertex_count es) ++ "):\n" ++
        concatStrs (es.map (fun e => specEdgeLine e ++ "\n" ++ "\n")) ∧
    (∀ e : Edge, e.to_string = specEdgeLine e ++ "\n") ∧
    specSlotRepr none = "NULL" := by
  refine ⟨?_, edge_to_string_line, rfl⟩
  unfold DirectedGraph.to_string
  rw [foldl_graph_to_string]
  have hmap : (fun e : Edge => e.to_string ++ "\n") =
      fun e : Edge => specEdgeLine e ++ "\n" ++ "\n" := by
    funext e
    rw [edge_to_string_line]
  rw [hmap]

theorem vertex_count_ge_double_edge_count (es : List Edge) :
    2 * DirectedGraph.edge_count es ≤ DirectedGraph.vertex_count es := by
  induction es with
  | nil => simp [DirectedGraph.edge_count, DirectedGraph.vertex_count]
  | cons e es ih =>
    rcases e with ⟨src, dst⟩
    cases src <;> cases dst <;>
      simp [DirectedGraph.edge_count, DirectedGraph.vertex_count] <;>
      omega

/-- C9: for every DirectedGraph state reachable from the empty graph by any
sequence of `add`, `add_edge` and `remove` operations, `vertex_count()` is
at least twice `edge_count()` (every edge counted by `edge_count` occupies
both a source and a destination slot; the bound in fact holds for every
edge list). -/
theorem c9_reachable_count_bound (es : List Edge) (_reach : Reachable es) :
    2 * DirectedGraph.edge_count es ≤ DirectedGraph.vertex_count es :=
  vertex_count_ge_double_edge_count es

theorem c9_witness :
    2 * DirectedGraph.edge_count (DirectedGraph.add [] vA) ≤
      DirectedGraph.vertex_count (DirectedGraph.add [] vA) :=
  c9_reachable_count_bound (DirectedGraph.add [] vA)
    (Reachable.add [] vA Reachable.empty)

/-- C10: each stored self-loop edge on `v` contributes exactly one
occurrence of `v` to `get_neighbors(v)` — the source-match branch pushes
the destination once, and the destination-match branch is not also taken
for the same edge. -/
theorem c10_self_loop_contributes_once (es₁ es₂ : List Edge) (v : Vertex) :
    DirectedGraph.get_neighbors (es₁ ++ ⟨some v, some v⟩ :: es₂) v =
      DirectedGraph.get_neighbors es₁ v ++ v :: DirectedGraph.get_neighbors es₂ v := by
  induction es₁ with
  | nil => simp [DirectedGraph.get_neighbors, neighborContrib]
  | cons e es ih => simp [DirectedGraph.get_neighbors, ih]

end Graphs
